import Mathlib

/-!
Verification development for ssgreg/jet.

Shallow embedding of the cascading stack coordinator (`jetfn.Stack`,
`jet.StackFunctions`), of the context forwarder and of `jethttp.RunServer`.

Modelling conventions.

* A Go `error` value is a `GoError` (an identity and the text returned by its
  `Error()` method); a nil error is `none`.
* A `context.Context` is the record of its four methods.  `Done` and `Err`
  depend on which cancel functions have been called so far, so they take the
  list of fired signals as an argument.
* A job is a function from the context it is handed to the error it returns.
* `stack` and `stackFunctions` compute the outcome of a run.  The only
  scheduling dependent value a frame reads is the result of the
  compare-and-swap on `useInternalErrorIf`; it is supplied by a schedule
  `sched : Nat → Bool`, where `sched 0` is the value read by the current frame
  and `fun n => sched (n + 1)` is the schedule of the nested frame.
* A panic is `Except.error` carrying the panic message.
* The order of events in a run of `jetfn.Stack` is given by an interleaving
  semantics: `step` executes one statement of the task of one frame, `run`
  executes a sequence of them.
-/

/-! Definitions. -/

namespace Jet

/-- Go error value: an identity together with the text returned by `Error()`. -/
structure GoError where
  ident : Nat
  text : String
deriving DecidableEq, Repr

/-- Identifiers of the cancel functions that have been called so far, the most
recent first. -/
abbrev Signals := List Nat

/-- The interface `context.Context`, as the record of its four methods. -/
structure Context where
  Deadline : Option Nat
  Done : Signals → Bool
  Err : Signals → Option GoError
  Value : Nat → Option Nat

/-- The error `context.Canceled` of the standard library. -/
def Canceled : GoError := ⟨0, "context canceled"⟩

/-- The context `context.Background()`: no deadline, never done, no values. -/
def Background : Context :=
  { Deadline := none
    Done := fun _ => false
    Err := fun _ => none
    Value := fun _ => none }

/-- The context `context.WithValue(parent, key, val)`. -/
def WithValue (parent : Context) (key val : Nat) : Context :=
  { Deadline := parent.Deadline
    Done := parent.Done
    Err := parent.Err
    Value := fun k => if k = key then some val else parent.Value k }

/-- The error of the context returned by `context.WithCancel(parent)` with
cancel function `sig`: the first cancellation wins and the error never changes
afterwards.  It is `Canceled` if `sig` fired while the context was not yet
cancelled, and the error of the parent if the parent was done first. -/
def cancelCtxErr (parent : Context) (sig : Nat) : Signals → Option GoError
  | [] => if parent.Done [] then parent.Err [] else none
  | last :: earlier =>
    match cancelCtxErr parent sig earlier with
    | some e => some e
    | none =>
      if last = sig then some Canceled
      else if parent.Done (last :: earlier) then parent.Err (last :: earlier)
      else none

/-- The context returned by `context.WithCancel(parent)`, whose cancel function
is the signal `sig`: it is done once `sig` has fired or the parent is done,
and it answers `Deadline` and `Value` like its parent (the one key it answers
itself is unexported by the standard library, so no caller can ask for it). -/
def WithCancel (parent : Context) (sig : Nat) : Context :=
  { Deadline := parent.Deadline
    Done := fun fired => decide (sig ∈ fired) || parent.Done fired
    Err := cancelCtxErr parent sig
    Value := parent.Value }

/-- A job: `func(context.Context) error`. -/
abbrev Job := Context → Option GoError

/-- What a frame produces: the error it returns, the lines it and its nested
frames wrote to the diagnostic stream (oldest first), and the trace of the
jobs it ran, by job position: the context handed to each job and the error
each job returned. -/
structure Outcome where
  err : Option GoError
  stderr : List String
  handed : List Context
  returned : List (Option GoError)

/-- The deferred closure of `stack` / `stackFunctions` (lines 31-44), run at
unwind with the flag `useInternalErrorFirst`, the nested result `internalErr`
and the frame's own result `err`; returns the new `err` and what is written to
the diagnostic stream. -/
def arbitrate (useInternalErrorFirst : Bool) (internalErr err : Option GoError) :
    Option GoError × List String :=
  let errorToSkip := internalErr
  let (errorToSkip, err) :=
    if (useInternalErrorFirst || err == none) && internalErr != none then
      (err, internalErr)
    else
      (errorToSkip, err)
  match errorToSkip with
  | some e => (err, ["skipped: " ++ e.text ++ "\n"])
  | none => (err, [])

end Jet

namespace Jet.jetfn

open Jet

/-- The struct `forwardContext` of `jetfn/stack.go`. -/
structure forwardContext where
  ctx : Context
  fwd : Context

/-- Method `(*forwardContext).Deadline`. -/
def forwardContext.Deadline (c : forwardContext) : Option Nat := c.ctx.Deadline

/-- Method `(*forwardContext).Done`. -/
def forwardContext.Done (c : forwardContext) : Signals → Bool := c.ctx.Done

/-- Method `(*forwardContext).Err`. -/
def forwardContext.Err (c : forwardContext) : Signals → Option GoError := c.ctx.Err

/-- Method `(*forwardContext).Value`. -/
def forwardContext.Value (c : forwardContext) : Nat → Option Nat := c.fwd.Value

/-- A `*forwardContext` used as a `context.Context`. -/
def forwardContext.toContext (c : forwardContext) : Context :=
  { Deadline := c.Deadline
    Done := c.Done
    Err := c.Err
    Value := c.Value }

/-- The function `stack` of `jetfn/stack.go`.  `fresh` is the identifier given
to the cancel function of the next `context.WithCancel`. -/
def stack (sched : Nat → Bool) (fresh : Nat) (ctx : Context) (cancel : Nat) :
    List Job → Except String Outcome
  | [] => Except.error "stack called with empty jobs"
  | job :: tail =>
    if tail.length + 1 > 1 then
      let externalCtx := WithCancel Background fresh
      match stack (fun n => sched (n + 1)) (fresh + 1) ctx cancel tail with
      | Except.error msg => Except.error msg
      | Except.ok nested =>
        let err := job (forwardContext.mk externalCtx ctx).toContext
        let useInternalErrorFirst := sched 0
        let r := arbitrate useInternalErrorFirst nested.err err
        Except.ok
          { err := r.1
            stderr := nested.stderr ++ r.2
            handed := (forwardContext.mk externalCtx ctx).toContext :: nested.handed
            returned := err :: nested.returned }
    else
      let externalCtx := ctx
      let err := job (forwardContext.mk externalCtx ctx).toContext
      let r := arbitrate false none err
      Except.ok
        { err := r.1
          stderr := r.2
          handed := [(forwardContext.mk externalCtx ctx).toContext]
          returned := [err] }

/-- The function `Stack` of `jetfn/stack.go`: the top signal is cancel function 0. -/
def Stack (sched : Nat → Bool) (ctx : Context) (jobs : List Job) : Except String Outcome :=
  let topCtx := WithCancel ctx 0
  let topCancel := 0
  stack sched 1 topCtx topCancel jobs

end Jet.jetfn

namespace Jet.jet

open Jet

/-- The function `stackFunctions` of `stack.go`. -/
def stackFunctions (sched : Nat → Bool) (fresh : Nat) (ctx : Context) (cancel : Nat) :
    List Job → Except String Outcome
  | [] => Except.error "stackFunctions called with empty jobs"
  | job :: tail =>
    if tail.length + 1 > 1 then
      let externalCtx := WithCancel Background fresh
      match stackFunctions (fun n => sched (n + 1)) (fresh + 1) ctx cancel tail with
      | Except.error msg => Except.error msg
      | Except.ok nested =>
        let err := job externalCtx
        let useInternalErrorFirst := sched 0
        let r := arbitrate useInternalErrorFirst nested.err err
        Except.ok
          { err := r.1
            stderr := nested.stderr ++ r.2
            handed := externalCtx :: nested.handed
            returned := err :: nested.returned }
    else
      let externalCtx := ctx
      let err := job externalCtx
      let r := arbitrate false none err
      Except.ok
        { err := r.1
          stderr := r.2
          handed := [externalCtx]
          returned := [err] }

/-- The function `StackFunctions` of `stack.go`. -/
def StackFunctions (sched : Nat → Bool) (ctx : Context) (jobs : List Job) :
    Except String Outcome :=
  let topCtx := WithCancel ctx 0
  let topCancel := 0
  stackFunctions sched 1 topCtx topCancel jobs

end Jet.jet

namespace Jet.jethttp

open Jet

/-- The error `http.ErrServerClosed` of the standard library. -/
def ErrServerClosed : GoError := ⟨1, "http: Server closed"⟩

/-- The function `RunServer` of `jethttp/server.go`, given what `s.Serve(l)`
returned and what `s.Shutdown` returned in the shutdown goroutine (which has
finished when the deferred closure runs, because of `wg.Wait`).  Returns the
error and what is written to the diagnostic stream. -/
def RunServer (serve shutdown : Option GoError) : Option GoError × List String :=
  let err := serve
  let shutdownError := shutdown
  let (err, out) :=
    if shutdownError != none then
      if err == none || err == some ErrServerClosed then
        (shutdownError, ([] : List String))
      else
        (err, match err with
              | some e => ["skipped: " ++ e.text ++ "\n"]
              | none => [])
    else
      (err, [])
  let err := if err == some ErrServerClosed then none else err
  (err, out)

end Jet.jethttp

namespace Jet

/-- The line written to the diagnostic stream for a skipped error. -/
def skippedLine (e : GoError) : String := "skipped: " ++ e.text ++ "\n"

end Jet

namespace Jet.jetfn

open Jet

/-- The context handed by a frame to its job: `&forwardContext{externalCtx, ctx}`. -/
def frameContext (externalCtx ctx : Context) : Context :=
  (forwardContext.mk externalCtx ctx).toContext

end Jet.jetfn

namespace Jet

/-- An error with text `A`. -/
def errA : GoError := ⟨10, "A"⟩

/-- An error with text `B`. -/
def errB : GoError := ⟨11, "B"⟩

/-- A job that fails with `errA`. -/
def jobA : Job := fun _ => some errA

/-- A job that fails with `errB`. -/
def jobB : Job := fun _ => some errB

/-- A job that succeeds. -/
def jobOk : Job := fun _ => none

/-- A caller context carrying the value 42 under the key 7. -/
def callerCtx : Context := WithValue Background 7 42

end Jet

namespace Jet.jetfn

open Jet

/-- Control points of the task that runs a frame of `stack`. -/
inductive Pc
  /-- The goroutine has not started yet. -/
  | idle
  /-- At line 25, before the nested goroutine is started. -/
  | entry
  /-- In the call of the job, line 72. -/
  | running
  /-- The job has returned; next is the deferred `externalCancel()`, line 61. -/
  | unwind1
  /-- Next is the deferred compare-and-swap, line 55. -/
  | unwind2
  /-- Next is the deferred `cancel()`, line 51. -/
  | unwind3
  /-- Next is the deferred `wg.Wait()`, line 50. -/
  | unwind4
  /-- Next is the deferred arbiter, lines 31-44. -/
  | unwind5
  /-- The frame has returned; next is the assignment to `internalErr`, line 68. -/
  | returned
  /-- Next is the deferred `atomic.StoreUint32`, line 67. -/
  | assigned
  /-- Next is the deferred `externalCancel()` of the goroutine, line 66. -/
  | stored
  /-- Next is the deferred `wg.Done()`, line 65. -/
  | cancelled
  /-- The task has ended. -/
  | finished
deriving DecidableEq, Repr

/-- Position of a control point in the program order of its task. -/
def Pc.rank : Pc → Nat
  | idle => 0
  | entry => 1
  | running => 2
  | unwind1 => 3
  | unwind2 => 4
  | unwind3 => 5
  | unwind4 => 6
  | unwind5 => 7
  | returned => 8
  | assigned => 9
  | stored => 10
  | cancelled => 11
  | finished => 12

/-- State of a run of `Stack`: the control point of the task of every frame
and the shared memory. -/
structure Sys where
  /-- Control point of the task of frame `i`. -/
  pc : Nat → Pc
  /-- Whether the caller's context is done. -/
  caller : Bool
  /-- Whether `cancel` (the cancel function of the top context) was called. -/
  top : Bool
  /-- Whether `externalCancel` of frame `i` was called. -/
  ext : Nat → Bool
  /-- Whether `useInternalErrorIf` of frame `i` is 1. -/
  flag : Nat → Bool
  /-- Variable `useInternalErrorFirst` of frame `i`. -/
  useInternalErrorFirst : Nat → Bool
  /-- Variable `err` of frame `i`. -/
  err : Nat → Option GoError
  /-- Variable `internalErr` of frame `i`. -/
  internalErr : Nat → Option GoError
  /-- What was written to the diagnostic stream. -/
  stderr : List String

/-- What can happen next in a run. -/
inductive Ev
  /-- The caller's context becomes done. -/
  | cancel
  /-- The task of frame `i` executes its next step; if that step is the return
  of its job, the job returns `e`. -/
  | act (i : Nat) (e : Option GoError)

/-- Whether the context handed to job `i` of `N` is done: the cancellation
source is the frame's `externalCtx`, which is the top context for the last
job and a fresh context for the others. -/
def Sys.done (N : Nat) (s : Sys) (i : Nat) : Bool :=
  if i + 1 < N then s.ext i else s.top || s.caller

/-- State at the call of `Stack`: only the task of frame 0 exists. -/
def Sys.init : Sys :=
  { pc := fun i => if i = 0 then Pc.entry else Pc.idle
    caller := false
    top := false
    ext := fun _ => false
    flag := fun _ => false
    useInternalErrorFirst := fun _ => false
    err := fun _ => none
    internalErr := fun _ => none
    stderr := [] }

/-- One step of a run of `Stack` over `N` jobs.  Job `i` with `waits i` set
returns only once its context is done; a job with `waits i` unset may return
at any time. -/
def step (N : Nat) (waits : Nat → Bool) (s : Sys) : Ev → Option Sys
  | Ev.cancel => some { s with caller := true }
  | Ev.act i e =>
    if i < N then
      match s.pc i with
      | Pc.idle =>
        if 0 < i ∧ Pc.running.rank ≤ (s.pc (i - 1)).rank then
          some { s with pc := Function.update s.pc i Pc.entry }
        else none
      | Pc.entry => some { s with pc := Function.update s.pc i Pc.running }
      | Pc.running =>
        if waits i && !(s.done N i) then none
        else some { s with
          pc := Function.update s.pc i (if i + 1 < N then Pc.unwind1 else Pc.unwind5)
          err := Function.update s.err i e }
      | Pc.unwind1 => some { s with
          pc := Function.update s.pc i Pc.unwind2
          ext := Function.update s.ext i true }
      | Pc.unwind2 => some { s with
          pc := Function.update s.pc i Pc.unwind3
          useInternalErrorFirst := Function.update s.useInternalErrorFirst i (s.flag i)
          flag := Function.update s.flag i false }
      | Pc.unwind3 => some { s with
          pc := Function.update s.pc i Pc.unwind4
          top := true }
      | Pc.unwind4 =>
        if s.pc (i + 1) = Pc.finished then
          some { s with pc := Function.update s.pc i Pc.unwind5 }
        else none
      | Pc.unwind5 => some { s with
          pc := Function.update s.pc i Pc.returned
          err := Function.update s.err i
            (arbitrate (s.useInternalErrorFirst i) (s.internalErr i) (s.err i)).1
          stderr := s.stderr ++
            (arbitrate (s.useInternalErrorFirst i) (s.internalErr i) (s.err i)).2 }
      | Pc.returned =>
        if 0 < i then some { s with
          pc := Function.update s.pc i Pc.assigned
          internalErr := Function.update s.internalErr (i - 1) (s.err i) }
        else none
      | Pc.assigned => some { s with
          pc := Function.update s.pc i Pc.stored
          flag := Function.update s.flag (i - 1) true }
      | Pc.stored => some { s with
          pc := Function.update s.pc i Pc.cancelled
          ext := Function.update s.ext (i - 1) true }
      | Pc.cancelled => some { s with pc := Function.update s.pc i Pc.finished }
      | Pc.finished => none
    else none

/-- Runs a sequence of events; `none` if one of them is not enabled. -/
def run (N : Nat) (waits : Nat → Bool) : Sys → List Ev → Option Sys
  | s, [] => some s
  | s, ev :: evs =>
    match step N waits s ev with
    | some t => run N waits t evs
    | none => none

/-- The job of frame `i` has returned. -/
def Sys.jobReturned (s : Sys) (i : Nat) : Prop := Pc.unwind1.rank ≤ (s.pc i).rank

/-- Frame `i` (its job and its nested cascade) has returned. -/
def Sys.frameReturned (s : Sys) (i : Nat) : Prop := Pc.returned.rank ≤ (s.pc i).rank

instance (s : Sys) (i : Nat) : Decidable (s.jobReturned i) :=
  inferInstanceAs (Decidable (Pc.unwind1.rank ≤ (s.pc i).rank))

instance (s : Sys) (i : Nat) : Decidable (s.frameReturned i) :=
  inferInstanceAs (Decidable (Pc.returned.rank ≤ (s.pc i).rank))

/-- Three jobs that wait for their context; the caller cancels once all three
are running, then the tasks of frames 2, 1 and 0 run to their end in turn. -/
def cascadeRun : List Ev :=
  [Ev.act 0 none, Ev.act 1 none, Ev.act 1 none, Ev.act 2 none, Ev.act 2 none, Ev.cancel]
    ++ List.replicate 6 (Ev.act 2 none) ++ List.replicate 10 (Ev.act 1 none)
    ++ List.replicate 6 (Ev.act 0 none)

/-- Two jobs: job 1 waits for its context, job 0 returns at once and its frame
executes the deferred `externalCancel()` of line 61. -/
def earlyReturnRun : List Ev :=
  [Ev.act 0 none, Ev.act 1 none, Ev.act 1 none, Ev.act 0 none, Ev.act 0 none]

/-- A cancelled fresh signal: its own frame is past its deferred
`externalCancel()` or the goroutine of the nested frame is past its own. -/
def Sys.ExtInv (s : Sys) : Prop :=
  ∀ i, s.ext i = true →
    Pc.unwind2.rank ≤ (s.pc i).rank ∨ Pc.cancelled.rank ≤ (s.pc (i + 1)).rank

/-- Jobs return in reverse order: once job `i` has returned, the goroutine of
frame `i + 1` is past its deferred `externalCancel()`. -/
def Sys.OrderInv (N : Nat) (s : Sys) : Prop :=
  ∀ i, i + 1 < N → Pc.unwind1.rank ≤ (s.pc i).rank → Pc.cancelled.rank ≤ (s.pc (i + 1)).rank

end Jet.jetfn

namespace Jet.jetfn

open Jet

/-- Whether an event agrees with job 0 returning `r0` and job 1 returning `r1`:
an event of the task of frame 0 carries `r0`, one of frame 1 carries `r1`. -/
def Ev.carries (r0 r1 : Option GoError) : Ev → Bool
  | Ev.cancel => true
  | Ev.act i e => decide (i = 0 → e = r0) && decide (i = 1 → e = r1)

/-- Invariant of the runs of `Stack` over two jobs that return `A` and `B`. -/
def Sys.TwoInv (A B : GoError) (s : Sys) : Prop :=
  s.pc 0 ≠ Pc.idle ∧ (s.pc 0).rank ≤ Pc.returned.rank ∧
  ((s.pc 1).rank ≤ Pc.running.rank ∨ Pc.unwind5.rank ≤ (s.pc 1).rank) ∧
  s.internalErr 1 = none ∧
  (Pc.unwind5.rank ≤ (s.pc 1).rank → s.err 1 = some B) ∧
  (Pc.assigned.rank ≤ (s.pc 1).rank → s.internalErr 0 = some B) ∧
  (Pc.cancelled.rank ≤ (s.pc 1).rank → s.ext 0 = true) ∧
  ((s.pc 0).rank ≤ Pc.unwind2.rank → (s.flag 0 = true ↔ Pc.stored.rank ≤ (s.pc 1).rank)) ∧
  (Pc.unwind1.rank ≤ (s.pc 0).rank → (s.pc 0).rank ≤ Pc.unwind5.rank → s.err 0 = some A) ∧
  ((s.pc 0).rank ≤ Pc.unwind5.rank → s.stderr = []) ∧
  (Pc.unwind5.rank ≤ (s.pc 0).rank → s.pc 1 = Pc.finished) ∧
  (Pc.returned.rank ≤ (s.pc 0).rank →
    s.err 0 = (arbitrate (s.useInternalErrorFirst 0) (some B) (some A)).1 ∧
    s.stderr = (arbitrate (s.useInternalErrorFirst 0) (some B) (some A)).2)

/-- Upper bound on the number of events a run over two jobs still needs to
reach the return of `Stack`. -/
def Sys.remaining (s : Sys) : Nat :=
  (if s.caller then 0 else 1) + (Pc.finished.rank - (s.pc 0).rank)
    + (Pc.finished.rank - (s.pc 1).rank)

/-- The next event of a run over two jobs returning `A` and `B` that is sure
to be enabled: the caller cancels, then the task of frame 1 runs to its end,
then the task of frame 0. -/
def Sys.nextEv (A B : GoError) (s : Sys) : Ev :=
  if s.caller then
    match s.pc 1 with
    | Pc.idle => if s.pc 0 = Pc.entry then Ev.act 0 (some A) else Ev.act 1 (some B)
    | Pc.finished => Ev.act 0 (some A)
    | _ => Ev.act 1 (some B)
  else Ev.cancel

/-- Start of a run over two jobs failing with `errA` and `errB`: both jobs are
started, then job 0 returns while job 1 is still running. -/
def bothStartedRun : List Ev :=
  [Ev.act 0 (some errA), Ev.act 1 (some errB), Ev.act 1 (some errB), Ev.act 0 (some errA)]

/-- After `bothStartedRun`: job 1 returns, frame 1 returns and its goroutine
assigns `internalErr` and stores the flag; then frame 0 executes its deferred
`externalCancel()` and is about to execute its compare-and-swap. -/
def lateStoreMid : List Ev :=
  List.replicate 4 (Ev.act 1 (some errB)) ++ [Ev.act 0 (some errA)]

/-- After `lateStoreMid` and the compare-and-swap of frame 0: the goroutine of
frame 1 ends, then frame 0 unwinds and returns. -/
def lateStorePost : List Ev :=
  List.replicate 2 (Ev.act 1 (some errB)) ++ List.replicate 3 (Ev.act 0 (some errA))

/-- After `bothStartedRun`: frame 0 executes its deferred `externalCancel()`
and is about to execute its compare-and-swap while job 1 is still running. -/
def earlyCasMid : List Ev :=
  [Ev.act 0 (some errA)]

/-- After `earlyCasMid` and the compare-and-swap of frame 0: frame 0 cancels
the top context, the task of frame 1 runs to its end, frame 0 returns. -/
def earlyCasPost : List Ev :=
  [Ev.act 0 (some errA)] ++ List.replicate 6 (Ev.act 1 (some errB))
    ++ List.replicate 2 (Ev.act 0 (some errA))

end Jet.jetfn

/-! Theorems. -/

namespace Jet

open Jet.jetfn Jet.jet Jet.jethttp

theorem arbitrate_err (f : Bool) (n l : Option GoError) :
    (arbitrate f n l).1 = if (f || l == none) && n != none then n else l := by
  cases f <;> cases n <;> cases l <;> rfl

theorem arbitrate_none (f : Bool) (l : Option GoError) :
    arbitrate f none l = (l, []) := by
  cases f <;> cases l <;> rfl

theorem arbitrate_local_none (f : Bool) (n : Option GoError) :
    arbitrate f n none = (n, []) := by
  cases f <;> cases n <;> rfl

theorem arbitrate_both_set (a b : GoError) :
    arbitrate true (some b) (some a) = (some b, [skippedLine a]) := rfl

theorem arbitrate_both_unset (a b : GoError) :
    arbitrate false (some b) (some a) = (some a, [skippedLine b]) := rfl

/-- The arbiter neither drops nor invents an error: what it returns and what
it logs are together the two errors it was given. -/
theorem arbitrate_conserves (f : Bool) (n l : Option GoError) :
    ∃ sk : List GoError, (arbitrate f n l).2 = sk.map skippedLine ∧
      List.Perm ((arbitrate f n l).1.toList ++ sk) (l.toList ++ n.toList) := by
  cases f <;> cases n <;> cases l
  all_goals first
    | exact ⟨[], rfl, List.Perm.refl _⟩
    | exact ⟨[_], rfl, List.Perm.refl _⟩
    | exact ⟨[_], rfl, List.Perm.swap _ _ _⟩

theorem arbitrate_isNone (f : Bool) (n l : Option GoError) :
    (arbitrate f n l).1 = none ↔ l = none ∧ n = none := by
  cases f <;> cases n <;> cases l <;> simp [arbitrate]

end Jet

namespace Jet.jetfn

open Jet

theorem stack_single (sched : Nat → Bool) (fresh : Nat) (ctx : Context) (cancel : Nat)
    (job : Job) :
    stack sched fresh ctx cancel [job] = Except.ok
      { err := job (frameContext ctx ctx)
        stderr := []
        handed := [frameContext ctx ctx]
        returned := [job (frameContext ctx ctx)] } := by
  simp [stack, arbitrate_none, frameContext]

theorem stack_cons (sched : Nat → Bool) (fresh : Nat) (ctx : Context) (cancel : Nat)
    (job j2 : Job) (rest : List Job) (nested : Outcome)
    (h : stack (fun n => sched (n + 1)) (fresh + 1) ctx cancel (j2 :: rest) = Except.ok nested) :
    stack sched fresh ctx cancel (job :: j2 :: rest) = Except.ok
      { err := (arbitrate (sched 0) nested.err
          (job (frameContext (WithCancel Background fresh) ctx))).1
        stderr := nested.stderr ++ (arbitrate (sched 0) nested.err
          (job (frameContext (WithCancel Background fresh) ctx))).2
        handed := frameContext (WithCancel Background fresh) ctx :: nested.handed
        returned := job (frameContext (WithCancel Background fresh) ctx) :: nested.returned } := by
  rw [stack]
  simp [h, frameContext]

theorem stack_ok (jobs : List Job) (hne : jobs ≠ []) :
    ∀ (sched : Nat → Bool) (fresh : Nat) (ctx : Context) (cancel : Nat),
      ∃ out, stack sched fresh ctx cancel jobs = Except.ok out := by
  induction jobs with
  | nil => exact absurd rfl hne
  | cons job tail ih =>
    intro sched fresh ctx cancel
    cases tail with
    | nil => exact ⟨_, stack_single sched fresh ctx cancel job⟩
    | cons j2 rest =>
      obtain ⟨nested, hn⟩ := ih (List.cons_ne_nil _ _) (fun n => sched (n + 1)) (fresh + 1) ctx cancel
      exact ⟨_, stack_cons sched fresh ctx cancel job j2 rest nested hn⟩

end Jet.jetfn

namespace Jet.jet

open Jet

theorem stackFunctions_single (sched : Nat → Bool) (fresh : Nat) (ctx : Context) (cancel : Nat)
    (job : Job) :
    stackFunctions sched fresh ctx cancel [job] = Except.ok
      { err := job ctx
        stderr := []
        handed := [ctx]
        returned := [job ctx] } := by
  simp [stackFunctions, arbitrate_none]

theorem stackFunctions_cons (sched : Nat → Bool) (fresh : Nat) (ctx : Context) (cancel : Nat)
    (job j2 : Job) (rest : List Job) (nested : Outcome)
    (h : stackFunctions (fun n => sched (n + 1)) (fresh + 1) ctx cancel (j2 :: rest)
      = Except.ok nested) :
    stackFunctions sched fresh ctx cancel (job :: j2 :: rest) = Except.ok
      { err := (arbitrate (sched 0) nested.err (job (WithCancel Background fresh))).1
        stderr := nested.stderr ++
          (arbitrate (sched 0) nested.err (job (WithCancel Background fresh))).2
        handed := WithCancel Background fresh :: nested.handed
        returned := job (WithCancel Background fresh) :: nested.returned } := by
  rw [stackFunctions]
  simp [h]

theorem stackFunctions_ok (jobs : List Job) (hne : jobs ≠ []) :
    ∀ (sched : Nat → Bool) (fresh : Nat) (ctx : Context) (cancel : Nat),
      ∃ out, stackFunctions sched fresh ctx cancel jobs = Except.ok out := by
  induction jobs with
  | nil => exact absurd rfl hne
  | cons job tail ih =>
    intro sched fresh ctx cancel
    cases tail with
    | nil => exact ⟨_, stackFunctions_single sched fresh ctx cancel job⟩
    | cons j2 rest =>
      obtain ⟨nested, hn⟩ := ih (List.cons_ne_nil _ _) (fun n => sched (n + 1)) (fresh + 1) ctx cancel
      exact ⟨_, stackFunctions_cons sched fresh ctx cancel job j2 rest nested hn⟩

end Jet.jet

namespace Jet.jetfn

open Jet

/-- Induction over the frames of a run of `stack`. -/
theorem stack_induction (ctx : Context) (cancel : Nat)
    (motive : (Nat → Bool) → Nat → List Job → Outcome → Prop)
    (single : ∀ sched fresh job, motive sched fresh [job]
      { err := job (frameContext ctx ctx)
        stderr := []
        handed := [frameContext ctx ctx]
        returned := [job (frameContext ctx ctx)] })
    (cons : ∀ sched fresh job j2 rest nested,
      stack (fun n => sched (n + 1)) (fresh + 1) ctx cancel (j2 :: rest) = Except.ok nested →
      motive (fun n => sched (n + 1)) (fresh + 1) (j2 :: rest) nested →
      motive sched fresh (job :: j2 :: rest)
        { err := (arbitrate (sched 0) nested.err
            (job (frameContext (WithCancel Background fresh) ctx))).1
          stderr := nested.stderr ++ (arbitrate (sched 0) nested.err
            (job (frameContext (WithCancel Background fresh) ctx))).2
          handed := frameContext (WithCancel Background fresh) ctx :: nested.handed
          returned := job (frameContext (WithCancel Background fresh) ctx) :: nested.returned }) :
    ∀ (jobs : List Job) (sched : Nat → Bool) (fresh : Nat) (out : Outcome),
      stack sched fresh ctx cancel jobs = Except.ok out → motive sched fresh jobs out := by
  intro jobs
  induction jobs with
  | nil =>
    intro sched fresh out h
    simp [stack] at h
  | cons job tail ih =>
    intro sched fresh out h
    cases tail with
    | nil =>
      rw [stack_single] at h
      cases h
      exact single sched fresh job
    | cons j2 rest =>
      obtain ⟨nested, hn⟩ := stack_ok (j2 :: rest) (List.cons_ne_nil _ _)
        (fun n => sched (n + 1)) (fresh + 1) ctx cancel
      rw [stack_cons sched fresh ctx cancel job j2 rest nested hn] at h
      cases h
      exact cons sched fresh job j2 rest nested hn (ih _ _ _ hn)

theorem stack_lengths (ctx : Context) (cancel : Nat) (jobs : List Job) (sched : Nat → Bool)
    (fresh : Nat) (out : Outcome) (h : stack sched fresh ctx cancel jobs = Except.ok out) :
    out.returned.length = jobs.length ∧ out.handed.length = jobs.length := by
  refine stack_induction ctx cancel
    (fun _ _ jobs out => out.returned.length = jobs.length ∧ out.handed.length = jobs.length)
    ?_ ?_ jobs sched fresh out h
  · intro _ _ _
    exact ⟨rfl, rfl⟩
  · intro _ _ _ _ _ nested _ ih
    simp [ih.1, ih.2]

theorem stack_returned (ctx : Context) (cancel : Nat) (jobs : List Job) (sched : Nat → Bool)
    (fresh : Nat) (out : Outcome) (h : stack sched fresh ctx cancel jobs = Except.ok out) :
    out.returned = List.zipWith (fun job c => job c) jobs out.handed := by
  refine stack_induction ctx cancel
    (fun _ _ jobs out => out.returned = List.zipWith (fun job c => job c) jobs out.handed)
    ?_ ?_ jobs sched fresh out h
  · intro _ _ _
    rfl
  · intro _ _ _ _ _ nested _ ih
    simp [← ih]

theorem stack_isNone (ctx : Context) (cancel : Nat) (jobs : List Job) (sched : Nat → Bool)
    (fresh : Nat) (out : Outcome) (h : stack sched fresh ctx cancel jobs = Except.ok out) :
    out.err = none ↔ ∀ r ∈ out.returned, r = none := by
  refine stack_induction ctx cancel
    (fun _ _ _ out => out.err = none ↔ ∀ r ∈ out.returned, r = none)
    ?_ ?_ jobs sched fresh out h
  · intro _ _ _
    simp
  · intro _ _ _ _ _ nested _ ih
    simp only [arbitrate_isNone, List.mem_cons, forall_eq_or_imp]
    rw [ih]

theorem stack_conserves (ctx : Context) (cancel : Nat) (jobs : List Job) (sched : Nat → Bool)
    (fresh : Nat) (out : Outcome) (h : stack sched fresh ctx cancel jobs = Except.ok out) :
    ∃ sk : List GoError, out.stderr = sk.map skippedLine ∧
      List.Perm (out.err.toList ++ sk) out.returned.reduceOption := by
  refine stack_induction ctx cancel
    (fun _ _ _ out => ∃ sk : List GoError, out.stderr = sk.map skippedLine ∧
      List.Perm (out.err.toList ++ sk) out.returned.reduceOption)
    ?_ ?_ jobs sched fresh out h
  · intro _ _ job
    refine ⟨[], rfl, ?_⟩
    cases job (frameContext ctx ctx) <;> simp [List.reduceOption]
  · intro sched fresh job _ _ nested _ ih
    obtain ⟨sk, hsk, hperm⟩ := ih
    obtain ⟨sk2, hsk2, hperm2⟩ := arbitrate_conserves (sched 0) nested.err
      (job (frameContext (WithCancel Background fresh) ctx))
    refine ⟨sk ++ sk2, by simp [hsk, hsk2], ?_⟩
    have h1 : List.Perm ((arbitrate (sched 0) nested.err
        (job (frameContext (WithCancel Background fresh) ctx))).1.toList ++ (sk ++ sk2))
        (((arbitrate (sched 0) nested.err
        (job (frameContext (WithCancel Background fresh) ctx))).1.toList ++ sk2) ++ sk) := by
      rw [List.append_assoc]
      exact List.Perm.append_left _ List.perm_append_comm
    refine h1.trans ?_
    refine (List.Perm.append_right sk hperm2).trans ?_
    rw [List.append_assoc]
    have h2 : (job (frameContext (WithCancel Background fresh) ctx) :: nested.returned).reduceOption
        = (job (frameContext (WithCancel Background fresh) ctx)).toList
          ++ nested.returned.reduceOption := by
      cases job (frameContext (WithCancel Background fresh) ctx) <;> simp [List.reduceOption]
    rw [h2]
    exact List.Perm.append_left _ hperm

end Jet.jetfn

namespace Jet

open Jet.jetfn Jet.jet Jet.jethttp

/-- C1 (as stated, refuted): with the flag set, a failing local job and a
nested frame that reports no error, the frame of `jetfn.stack` reports the
local error, not the (absent) nested one. -/
theorem C1_flag_set_nested_none_reports_local :
    ∃ out nested,
      jetfn.stack (fun _ => true) 1 Background 0 [jobA, jobOk] = Except.ok out ∧
      jetfn.stack (fun _ => true) 2 Background 0 [jobOk] = Except.ok nested ∧
      out.returned.head? = some (some errA) ∧ nested.err = none ∧
      out.err = some errA ∧
      out.err ≠ (if true || (some errA == none) then nested.err else some errA) :=
  ⟨_, _, rfl, rfl, rfl, rfl, rfl, by decide⟩

/-- C1 (amended): in a frame of `jetfn.stack` and of `jet.stackFunctions` that
has a nested frame, for every local result, nested result and flag, the frame
reports nested if nested is an error and the flag is set or local is none, and
reports local otherwise. -/
theorem C1_frame_reports (sched : Nat → Bool) (fresh : Nat) (ctx : Context) (cancel : Nat)
    (job j2 : Job) (rest : List Job) :
    (∃ nested out,
      jetfn.stack (fun n => sched (n + 1)) (fresh + 1) ctx cancel (j2 :: rest)
        = Except.ok nested ∧
      jetfn.stack sched fresh ctx cancel (job :: j2 :: rest) = Except.ok out ∧
      ∃ loc, out.returned.head? = some loc ∧
        out.err = if (sched 0 || loc == none) && nested.err != none then nested.err else loc) ∧
    (∃ nested out,
      jet.stackFunctions (fun n => sched (n + 1)) (fresh + 1) ctx cancel (j2 :: rest)
        = Except.ok nested ∧
      jet.stackFunctions sched fresh ctx cancel (job :: j2 :: rest) = Except.ok out ∧
      ∃ loc, out.returned.head? = some loc ∧
        out.err = if (sched 0 || loc == none) && nested.err != none then nested.err else loc) := by
  constructor
  · obtain ⟨nested, hn⟩ := stack_ok (j2 :: rest) (List.cons_ne_nil _ _)
      (fun n => sched (n + 1)) (fresh + 1) ctx cancel
    exact ⟨nested, _, hn, stack_cons sched fresh ctx cancel job j2 rest nested hn, _, rfl,
      arbitrate_err _ _ _⟩
  · obtain ⟨nested, hn⟩ := stackFunctions_ok (j2 :: rest) (List.cons_ne_nil _ _)
      (fun n => sched (n + 1)) (fresh + 1) ctx cancel
    exact ⟨nested, _, hn, stackFunctions_cons sched fresh ctx cancel job j2 rest nested hn, _, rfl,
      arbitrate_err _ _ _⟩

theorem reduceOption_all_none (l : List (Option GoError))
    (h : ∀ j, j < l.length → l[j]? = some none) : l.reduceOption = [] := by
  induction l with
  | nil => rfl
  | cons a t ih =>
    have ha : a = none := by
      have := h 0 (by simp)
      simpa using this
    subst ha
    rw [List.reduceOption_cons_of_none]
    apply ih
    intro j hj
    have := h (j + 1) (by simpa using hj)
    simpa using this

theorem reduceOption_single (l : List (Option GoError)) (E : GoError) :
    ∀ i, l[i]? = some (some E) → (∀ j, j ≠ i → j < l.length → l[j]? = some none) →
      l.reduceOption = [E] := by
  induction l with
  | nil => intro i hi; simp at hi
  | cons a t ih =>
    intro i hi ho
    cases i with
    | zero =>
      have ha : a = some E := by simpa using hi
      subst ha
      rw [List.reduceOption_cons_of_some, reduceOption_all_none t]
      intro j hj
      have := ho (j + 1) (by simp) (by simpa using hj)
      simpa using this
    | succ k =>
      have ha : a = none := by
        have := ho 0 (by simp) (by simp)
        simpa using this
      subst ha
      rw [List.reduceOption_cons_of_none]
      apply ih k (by simpa using hi)
      intro j hj hlt
      have := ho (j + 1) (by simpa using hj) (by simpa using hlt)
      simpa using this

/-- C2: for every non-empty job list, every position `i` and every schedule
of the completion-order flags, if job `i` returns the error `E` and every other
job returns no error, `jetfn.Stack` returns exactly `E` and writes nothing to
the diagnostic stream. -/
theorem C2_single_failure_returned (sched : Nat → Bool) (ctx : Context) (jobs : List Job)
    (i : Nat) (E : GoError) (hi : i < jobs.length) :
    ∃ out, Stack sched ctx jobs = Except.ok out ∧ out.returned.length = jobs.length ∧
      (out.returned[i]? = some (some E) →
        (∀ j, j ≠ i → j < jobs.length → out.returned[j]? = some none) →
        out.err = some E ∧ out.stderr = []) := by
  have hne : jobs ≠ [] := by
    intro h
    simp [h] at hi
  obtain ⟨out, hout⟩ := stack_ok jobs hne sched 1 (WithCancel ctx 0) 0
  have hlen := (stack_lengths _ _ _ _ _ _ hout).1
  refine ⟨out, hout, hlen, ?_⟩
  intro hE hO
  have hred : out.returned.reduceOption = [E] :=
    reduceOption_single out.returned E i hE (fun j hj hlt => hO j hj (hlen ▸ hlt))
  obtain ⟨sk, hsk, hperm⟩ := stack_conserves _ _ _ _ _ _ hout
  rw [hred] at hperm
  have hnone := stack_isNone _ _ _ _ _ _ hout
  have hmem : some E ∈ out.returned := List.getElem?_mem hE
  cases herr : out.err with
  | none =>
    have := (hnone.mp herr) _ hmem
    simp at this
  | some e =>
    rw [herr] at hperm
    have hl := hperm.length_eq
    simp at hl
    subst hl
    have := hperm.eq_singleton
    simp at this
    simp [this, hsk]

/-- C2 witness: three jobs, the middle one fails. -/
theorem C2_single_failure_returned_witness :
    ∃ out, Stack (fun _ => true) Background [jobOk, jobA, jobOk] = Except.ok out ∧
      out.err = some errA ∧ out.stderr = [] := by
  obtain ⟨out, h, _, himp⟩ := C2_single_failure_returned (fun _ => true) Background
    [jobOk, jobA, jobOk] 1 errA (by decide)
  refine ⟨out, h, ?_⟩
  have hout : Stack (fun _ => true) Background [jobOk, jobA, jobOk] = Except.ok
      { err := some errA, stderr := [], handed := _, returned := [none, some errA, none] } := rfl
  rw [hout] at h
  cases h
  exact himp rfl (by
    intro j hj hlt
    have : j = 0 ∨ j = 2 := by simp at hlt; omega
    rcases this with rfl | rfl <;> rfl)

/-- C4: for every non-empty job list and every schedule, the error returned by
`jetfn.Stack` together with the errors written as `skipped:` lines is, as a
multiset, exactly the errors returned by the jobs; in particular the returned
error, if any, is the error of one of the jobs. -/
theorem C4_errors_conserved (sched : Nat → Bool) (ctx : Context) (jobs : List Job)
    (hne : jobs ≠ []) :
    ∃ (out : Outcome) (skipped : List GoError),
      Stack sched ctx jobs = Except.ok out ∧ out.returned.length = jobs.length ∧
      out.stderr = skipped.map (fun e => "skipped: " ++ e.text ++ "\n") ∧
      ((out.err.toList ++ skipped : List GoError) : Multiset GoError)
        = (out.returned.reduceOption : Multiset GoError) ∧
      (∀ e, out.err = some e → ∃ i, i < jobs.length ∧ out.returned[i]? = some (some e)) := by
  obtain ⟨out, hout⟩ := stack_ok jobs hne sched 1 (WithCancel ctx 0) 0
  have hlen := (stack_lengths _ _ _ _ _ _ hout).1
  obtain ⟨sk, hsk, hperm⟩ := stack_conserves _ _ _ _ _ _ hout
  refine ⟨out, sk, hout, hlen, hsk, Quotient.sound hperm, ?_⟩
  intro e he
  have hmem : e ∈ out.returned.reduceOption := by
    apply hperm.subset
    simp [he]
  rw [List.reduceOption_mem_iff] at hmem
  obtain ⟨i, hi⟩ := List.mem_iff_getElem?.mp hmem
  refine ⟨i, ?_, hi⟩
  rw [← hlen]
  by_contra hge
  rw [List.getElem?_eq_none (Nat.le_of_not_lt hge)] at hi
  exact Option.noConfusion hi

/-- C4 witness: three failing jobs, one error returned and two logged. -/
theorem C4_errors_conserved_witness :
    ∃ (out : Outcome) (skipped : List GoError),
      Stack (fun _ => true) Background [jobA, jobB, jobA] = Except.ok out ∧
      out.returned.length = 3 ∧
      out.stderr = skipped.map (fun e => "skipped: " ++ e.text ++ "\n") ∧
      ((out.err.toList ++ skipped : List GoError) : Multiset GoError)
        = (out.returned.reduceOption : Multiset GoError) ∧
      (∀ e, out.err = some e → ∃ i, i < 3 ∧ out.returned[i]? = some (some e)) :=
  C4_errors_conserved (fun _ => true) Background [jobA, jobB, jobA] (by simp)

/-- C10: for every non-empty job list and every schedule, `jetfn.Stack`
returns no error if and only if every job returned no error. -/
theorem C10_nil_iff_all_nil (sched : Nat → Bool) (ctx : Context) (jobs : List Job)
    (hne : jobs ≠ []) :
    ∃ out, Stack sched ctx jobs = Except.ok out ∧ out.returned.length = jobs.length ∧
      (out.err = none ↔ ∀ i, i < jobs.length → out.returned[i]? = some none) := by
  obtain ⟨out, hout⟩ := stack_ok jobs hne sched 1 (WithCancel ctx 0) 0
  have hlen := (stack_lengths _ _ _ _ _ _ hout).1
  refine ⟨out, hout, hlen, ?_⟩
  rw [stack_isNone _ _ _ _ _ _ hout]
  constructor
  · intro h i hi
    rw [← hlen] at hi
    rw [List.getElem?_eq_getElem hi, h _ (List.getElem_mem hi)]
  · intro h r hr
    obtain ⟨i, hi⟩ := List.mem_iff_getElem?.mp hr
    have hlt : i < out.returned.length := by
      by_contra hge
      rw [List.getElem?_eq_none (Nat.le_of_not_lt hge)] at hi
      exact Option.noConfusion hi
    have := h i (hlen ▸ hlt)
    rw [hi] at this
    exact Option.some.inj this

/-- C10 witness: two jobs that succeed. -/
theorem C10_nil_iff_all_nil_witness :
    ∃ out, Stack (fun _ => false) Background [jobOk, jobOk] = Except.ok out ∧
      out.returned.length = 2 ∧
      (out.err = none ↔ ∀ i, i < 2 → out.returned[i]? = some none) :=
  C10_nil_iff_all_nil (fun _ => false) Background [jobOk, jobOk] (by simp)

end Jet

namespace Jet.jetfn

open Jet

theorem stack_value (ctx : Context) (cancel : Nat) (jobs : List Job) (sched : Nat → Bool)
    (fresh : Nat) (out : Outcome) (h : stack sched fresh ctx cancel jobs = Except.ok out) :
    ∀ c ∈ out.handed, c.Value = ctx.Value := by
  refine stack_induction ctx cancel
    (fun _ _ _ out => ∀ c ∈ out.handed, c.Value = ctx.Value)
    ?_ ?_ jobs sched fresh out h
  · intro _ _ _ c hc
    simp only [List.mem_singleton] at hc
    subst hc
    rfl
  · intro _ _ _ _ _ nested _ ih c hc
    simp only [List.mem_cons] at hc
    rcases hc with rfl | hc
    · rfl
    · exact ih c hc

end Jet.jetfn

namespace Jet

open Jet.jetfn Jet.jet Jet.jethttp

/-- C5: for every non-empty job list, the context handed by `jetfn.Stack` to
the job at any position answers `Value` exactly as the caller context does;
a `forwardContext` routes `Value` to its `fwd` field and `Deadline`, `Done`
and `Err` to its `ctx` field. -/
theorem C5_value_forwarded (sched : Nat → Bool) (ctx : Context) (jobs : List Job)
    (hne : jobs ≠ []) :
    (∃ out, Stack sched ctx jobs = Except.ok out ∧ out.handed.length = jobs.length ∧
      out.returned = List.zipWith (fun job c => job c) jobs out.handed ∧
      ∀ i k, i < jobs.length → (out.handed[i]?).map (fun c => c.Value k) = some (ctx.Value k)) ∧
    (∀ c : forwardContext,
      c.toContext.Value = c.fwd.Value ∧ c.toContext.Deadline = c.ctx.Deadline ∧
      c.toContext.Done = c.ctx.Done ∧ c.toContext.Err = c.ctx.Err) := by
  refine ⟨?_, fun c => ⟨rfl, rfl, rfl, rfl⟩⟩
  obtain ⟨out, hout⟩ := stack_ok jobs hne sched 1 (WithCancel ctx 0) 0
  have hlen := (stack_lengths _ _ _ _ _ _ hout).2
  refine ⟨out, hout, hlen, stack_returned _ _ _ _ _ _ hout, ?_⟩
  intro i k hi
  rw [← hlen] at hi
  rw [List.getElem?_eq_getElem hi]
  have := stack_value _ _ _ _ _ _ hout _ (List.getElem_mem hi)
  simp only [Option.map_some']
  rw [this]
  rfl

/-- C5 witness: both of two jobs see the value stored under key 7. -/
theorem C5_value_forwarded_witness :
    ∃ out, Stack (fun _ => false) callerCtx [jobOk, jobOk] = Except.ok out ∧
      out.handed.map (fun c => c.Value 7) = [some 42, some 42] := by
  obtain ⟨⟨out, h, hlen, _, hv⟩, _⟩ :=
    C5_value_forwarded (fun _ => false) callerCtx [jobOk, jobOk] (by simp)
  refine ⟨out, h, ?_⟩
  have h0 := hv 0 7 (by decide)
  have h1 := hv 1 7 (by decide)
  match hh : out.handed, hlen with
  | [a, b], _ =>
    rw [hh] at h0 h1
    simp only [List.getElem?_cons_zero, List.getElem?_cons_succ, Option.map_some',
      Option.some.injEq] at h0 h1
    simp only [List.map_cons, List.map_nil, h0, h1]
    rfl

/-- C6 (code evaluated at the failing input): `jet.StackFunctions` hands the
first of two jobs a context that answers `Value 7` with nil although the
caller context answers 42; only the last job sees the value. -/
theorem C6_value_lost_in_StackFunctions :
    callerCtx.Value 7 = some 42 ∧
    ∃ out, StackFunctions (fun _ => false) callerCtx [jobOk, jobOk] = Except.ok out ∧
      out.handed.map (fun c => c.Value 7) = [none, some 42] :=
  ⟨rfl, _, rfl, rfl⟩

/-- C8: called with no job, `jetfn.Stack` and `jet.StackFunctions` panic with
their respective messages; called with at least one job, neither panics in any
frame of the recursion: they return a result. -/
theorem C8_empty_panics (sched : Nat → Bool) (ctx : Context) :
    Stack sched ctx [] = Except.error "stack called with empty jobs" ∧
    StackFunctions sched ctx [] = Except.error "stackFunctions called with empty jobs" ∧
    (∀ (fresh cancel : Nat) (jobs : List Job), jobs ≠ [] →
      (∃ out, jetfn.stack sched fresh ctx cancel jobs = Except.ok out) ∧
      (∃ out, jet.stackFunctions sched fresh ctx cancel jobs = Except.ok out)) ∧
    (∀ jobs : List Job, jobs ≠ [] →
      (∃ out, Stack sched ctx jobs = Except.ok out) ∧
      (∃ out, StackFunctions sched ctx jobs = Except.ok out)) :=
  ⟨rfl, rfl,
    fun fresh cancel jobs hne =>
      ⟨stack_ok jobs hne sched fresh ctx cancel, stackFunctions_ok jobs hne sched fresh ctx cancel⟩,
    fun jobs hne =>
      ⟨stack_ok jobs hne sched 1 (WithCancel ctx 0) 0,
        stackFunctions_ok jobs hne sched 1 (WithCancel ctx 0) 0⟩⟩

/-- C8 witness: a single job does not panic. -/
theorem C8_empty_panics_witness :
    (∃ out, Stack (fun _ => false) Background [jobOk] = Except.ok out) ∧
    (∃ out, StackFunctions (fun _ => false) Background [jobOk] = Except.ok out) :=
  (C8_empty_panics (fun _ => false) Background).2.2.2 [jobOk] (by simp)

/-- C9 (code evaluated at the failing input): when `Serve` returns
`ErrServerClosed` and `Shutdown` returned the error `A`, `RunServer` returns
`A`, whereas its documentation promises nil in case of `ErrServerClosed`. -/
theorem C9_shutdown_error_returned :
    RunServer (some ErrServerClosed) (some errA) = (some errA, []) := by
  decide

/-- What `RunServer` does when `Serve` returns `ErrServerClosed`: it returns
nil if `Shutdown` recorded no error (or `ErrServerClosed` itself), and the
recorded shutdown error otherwise; nothing is logged. -/
theorem runServer_server_closed (shutdown : Option GoError) :
    RunServer (some ErrServerClosed) shutdown
      = (if shutdown = some ErrServerClosed then none else shutdown, []) := by
  cases shutdown with
  | none => decide
  | some e =>
    by_cases h : e = ErrServerClosed
    · subst h
      decide
    · simp [RunServer, h]

end Jet

namespace Jet.jetfn

open Jet

theorem step_pc_other (N : Nat) (waits : Nat → Bool) (s t : Sys) (j : Nat) (e : Option GoError)
    (h : step N waits s (Ev.act j e) = some t) (k : Nat) (hk : k ≠ j) : t.pc k = s.pc k := by
  simp only [step] at h
  split at h
  · split at h
    all_goals try split at h
    all_goals first
      | exact Option.noConfusion h
      | (cases h; simp [Function.update, hk])
  · exact Option.noConfusion h

theorem rank_after_job (c : Prop) [Decidable c] :
    Pc.unwind1.rank ≤ (if c then Pc.unwind1 else Pc.unwind5).rank := by
  split <;> decide

theorem step_pc_lt (N : Nat) (waits : Nat → Bool) (s t : Sys) (j : Nat) (e : Option GoError)
    (h : step N waits s (Ev.act j e) = some t) : (s.pc j).rank < (t.pc j).rank := by
  simp only [step] at h
  split at h
  · split at h
    all_goals try split at h
    all_goals first
      | exact Option.noConfusion h
      | (cases h; simp_all [Function.update, Pc.rank]; done)
      | (cases h
         have := rank_after_job (j + 1 < N)
         simp_all [Function.update, Pc.rank]
         omega)
  · exact Option.noConfusion h

theorem step_ext (N : Nat) (waits : Nat → Bool) (s t : Sys) (j : Nat) (e : Option GoError)
    (h : step N waits s (Ev.act j e) = some t) (i : Nat) (hex : t.ext i = true) :
    s.ext i = true ∨ (j = i ∧ Pc.unwind2.rank ≤ (t.pc i).rank) ∨
      (j = i + 1 ∧ Pc.cancelled.rank ≤ (t.pc (i + 1)).rank) := by
  simp only [step] at h
  split at h
  · split at h
    all_goals try split at h
    all_goals first
      | exact Option.noConfusion h
      | (cases h; exact Or.inl hex)
      | (cases h
         by_cases hij : i = j
         · subst hij
           right; left
           simp [Function.update, Pc.rank]
         · left
           simpa [Function.update, hij] using hex)
      | (cases h
         by_cases hij : i = j - 1
         · by_cases hj : j = 0
           · right; left
             subst hj
             simp at hij
             subst hij
             simp [Function.update, Pc.rank]
           · right; right
             have : j = i + 1 := by omega
             subst this
             simp [Function.update, Pc.rank]
         · left
           simpa [Function.update, hij] using hex)
  · exact Option.noConfusion h

theorem step_job_return (N : Nat) (waits : Nat → Bool) (s t : Sys) (j : Nat)
    (e : Option GoError) (h : step N waits s (Ev.act j e) = some t)
    (hlt : (s.pc j).rank < Pc.unwind1.rank) (hge : Pc.unwind1.rank ≤ (t.pc j).rank)
    (hj : j + 1 < N) (hw : waits j = true) : s.ext j = true := by
  simp only [step] at h
  split at h
  · split at h
    all_goals try split at h
    all_goals first
      | exact Option.noConfusion h
      | (cases h; simp_all [Function.update, Pc.rank, Sys.done])
  · exact Option.noConfusion h

theorem step_pc_mono (N : Nat) (waits : Nat → Bool) (s t : Sys) (ev : Ev)
    (h : step N waits s ev = some t) (k : Nat) : (s.pc k).rank ≤ (t.pc k).rank := by
  cases ev with
  | cancel =>
    simp only [step] at h
    cases h
    exact Nat.le_refl _
  | act j e =>
    by_cases hk : k = j
    · subst hk
      exact Nat.le_of_lt (step_pc_lt N waits s t k e h)
    · rw [step_pc_other N waits s t j e h k hk]

theorem extInv_init : Sys.init.ExtInv := by
  intro i h
  simp [Sys.init] at h

theorem orderInv_init (N : Nat) : Sys.init.OrderInv N := by
  intro i _ h
  by_cases hi : i = 0 <;> simp [Sys.init, hi, Pc.rank] at h

theorem extInv_step (N : Nat) (waits : Nat → Bool) (s t : Sys) (ev : Ev)
    (h : step N waits s ev = some t) (hs : s.ExtInv) : t.ExtInv := by
  intro i hex
  have hmono := step_pc_mono N waits s t ev h
  cases ev with
  | cancel =>
    simp only [step] at h
    cases h
    exact hs i hex
  | act j e =>
    rcases step_ext N waits s t j e h i hex with h1 | ⟨_, h2⟩ | ⟨_, h3⟩
    · rcases hs i h1 with h4 | h5
      · exact Or.inl (Nat.le_trans h4 (hmono i))
      · exact Or.inr (Nat.le_trans h5 (hmono (i + 1)))
    · exact Or.inl h2
    · exact Or.inr h3

theorem orderInv_step (N : Nat) (waits : Nat → Bool) (hw : ∀ j, waits j = true) (s t : Sys)
    (ev : Ev) (h : step N waits s ev = some t) (he : s.ExtInv) (hs : s.OrderInv N) :
    t.OrderInv N := by
  intro i hi hret
  have hmono := step_pc_mono N waits s t ev h
  by_cases hold : Pc.unwind1.rank ≤ (s.pc i).rank
  · exact Nat.le_trans (hs i hi hold) (hmono (i + 1))
  · have hlt : (s.pc i).rank < Pc.unwind1.rank := Nat.lt_of_not_le hold
    cases ev with
    | cancel =>
      simp only [step] at h
      cases h
      exact absurd hret hold
    | act j e =>
      by_cases hj : i = j
      · subst hj
        have hx := step_job_return N waits s t i e h hlt hret hi (hw i)
        rcases he i hx with h4 | h5
        · have h2 : Pc.unwind1.rank ≤ Pc.unwind2.rank := by decide
          exact absurd (Nat.le_trans h2 h4) hold
        · exact Nat.le_trans h5 (hmono (i + 1))
      · rw [step_pc_other N waits s t j e h i hj] at hret
        exact absurd hret hold

theorem run_extInv (N : Nat) (waits : Nat → Bool) (evs : List Ev) :
    ∀ s t, run N waits s evs = some t → s.ExtInv → t.ExtInv := by
  induction evs with
  | nil =>
    intro s t h hs
    simp only [run] at h
    cases h
    exact hs
  | cons ev evs ih =>
    intro s t h hs
    simp only [run] at h
    cases hstep : step N waits s ev with
    | none => simp [hstep] at h
    | some u =>
      rw [hstep] at h
      exact ih u t h (extInv_step N waits s u ev hstep hs)

theorem run_orderInv (N : Nat) (waits : Nat → Bool) (hw : ∀ j, waits j = true) (evs : List Ev) :
    ∀ s t, run N waits s evs = some t → s.ExtInv → s.OrderInv N → t.OrderInv N := by
  induction evs with
  | nil =>
    intro s t h _ hs
    simp only [run] at h
    cases h
    exact hs
  | cons ev evs ih =>
    intro s t h he hs
    simp only [run] at h
    cases hstep : step N waits s ev with
    | none => simp [hstep] at h
    | some u =>
      rw [hstep] at h
      exact ih u t h (extInv_step N waits s u ev hstep he)
        (orderInv_step N waits hw s u ev hstep he hs)

end Jet.jetfn

namespace Jet

open Jet.jetfn Jet.jet Jet.jethttp

/-- C7 (as stated, refuted): with two jobs, job 1 waiting for its context and
job 0 returning at once, the fresh signal of frame 0 is cancelled by the
deferred `externalCancel()` of frame 0 while the nested frame is still running
its job. -/
theorem C7_signal_cancelled_while_nested_runs :
    ∃ s, run 2 (fun j => decide (j = 1)) Sys.init earlyReturnRun = some s ∧
      s.ext 0 = true ∧ s.pc 1 = Pc.running ∧ ¬ s.frameReturned 1 :=
  ⟨_, rfl, rfl, rfl, by decide⟩

/-- C7 (amended): in every run of `jetfn.Stack` over `N` jobs and for every
frame `i` with `i + 1 < N`, when the fresh signal of frame `i` is cancelled
either the nested frame has returned or job `i` itself has returned; and when
every job waits for its context, job `i` has returned only if job `i + 1` and
the whole nested frame returned before. -/
theorem C7_signal_after_nested_or_own_job (N : Nat) (waits : Nat → Bool) (evs : List Ev)
    (s : Sys) (hrun : run N waits Sys.init evs = some s) (i : Nat) (hi : i + 1 < N) :
    (s.ext i = true → s.frameReturned (i + 1) ∨ s.jobReturned i) ∧
    ((∀ j, waits j = true) → s.jobReturned i →
      s.jobReturned (i + 1) ∧ s.frameReturned (i + 1)) := by
  have he := run_extInv N waits evs Sys.init s hrun extInv_init
  constructor
  · intro hex
    rcases he i hex with h1 | h2
    · right
      exact Nat.le_trans (by decide : Pc.unwind1.rank ≤ Pc.unwind2.rank) h1
    · left
      exact Nat.le_trans (by decide : Pc.returned.rank ≤ Pc.cancelled.rank) h2
  · intro hw hret
    have ho := run_orderInv N waits hw evs Sys.init s hrun extInv_init (orderInv_init N) i hi hret
    exact ⟨Nat.le_trans (by decide : Pc.unwind1.rank ≤ Pc.cancelled.rank) ho,
      Nat.le_trans (by decide : Pc.returned.rank ≤ Pc.cancelled.rank) ho⟩

/-- C7 witness: three waiting jobs, cancelled by the caller, run to the end;
the fresh signal of frame 0 is cancelled and frame 1 has returned. -/
theorem C7_signal_after_nested_or_own_job_witness :
    ∃ s, run 3 (fun _ => true) Sys.init cascadeRun = some s ∧
      s.pc 0 = Pc.returned ∧ s.ext 0 = true ∧
      (s.frameReturned 1 ∨ s.jobReturned 0) ∧
      (s.jobReturned 1 ∧ s.frameReturned 1) :=
  ⟨_, rfl, rfl, rfl,
    (C7_signal_after_nested_or_own_job 3 (fun _ => true) cascadeRun _ rfl 0 (by decide)).1 rfl,
    (C7_signal_after_nested_or_own_job 3 (fun _ => true) cascadeRun _ rfl 0 (by decide)).2
      (fun _ => rfl) (by decide)⟩

end Jet

namespace Jet.jetfn

open Jet

theorem twoInv_init (A B : GoError) : Sys.init.TwoInv A B := by
  simp [Sys.TwoInv, Sys.init, Pc.rank]

theorem twoInv_step (waits : Nat → Bool) (A B : GoError) (s t : Sys) (ev : Ev)
    (hc : ev.carries (some A) (some B) = true) (h : step 2 waits s ev = some t)
    (hs : s.TwoInv A B) : t.TwoInv A B := by
  cases ev with
  | cancel =>
    simp only [step] at h
    cases h
    exact hs
  | act j e =>
    simp only [Ev.carries, Bool.and_eq_true, decide_eq_true_eq] at hc
    obtain ⟨hc0, hc1⟩ := hc
    simp only [step] at h
    split at h
    · rename_i hj
      have hj2 : j = 0 ∨ j = 1 := by omega
      rcases hj2 with rfl | rfl
      · have he := hc0 rfl
        subst he
        clear hc0 hc1
        split at h
        all_goals try split at h
        all_goals first
          | exact Option.noConfusion h
          | (cases h
             unfold Sys.TwoInv at hs ⊢
             simp_all [Function.update, Pc.rank, arbitrate_none])
      · have he := hc1 rfl
        subst he
        clear hc0 hc1
        split at h
        all_goals try split at h
        all_goals first
          | exact Option.noConfusion h
          | (cases h
             unfold Sys.TwoInv at hs ⊢
             simp_all [Function.update, Pc.rank, arbitrate_none])
    · exact Option.noConfusion h

theorem run_append (N : Nat) (waits : Nat → Bool) (a b : List Ev) :
    ∀ s t, run N waits s a = some t → run N waits s (a ++ b) = run N waits t b := by
  induction a with
  | nil =>
    intro s t h
    simp only [run] at h
    cases h
    rfl
  | cons ev evs ih =>
    intro s t h
    simp only [run, List.cons_append] at h ⊢
    cases hstep : step N waits s ev with
    | none => simp [hstep] at h
    | some u =>
      rw [hstep] at h
      simp only []
      exact ih u t h

theorem run_pc_mono (N : Nat) (waits : Nat → Bool) (evs : List Ev) (k : Nat) :
    ∀ s t, run N waits s evs = some t → (s.pc k).rank ≤ (t.pc k).rank := by
  induction evs with
  | nil =>
    intro s t h
    simp only [run] at h
    cases h
    exact Nat.le_refl _
  | cons ev evs ih =>
    intro s t h
    simp only [run] at h
    cases hstep : step N waits s ev with
    | none => simp [hstep] at h
    | some u =>
      rw [hstep] at h
      exact Nat.le_trans (step_pc_mono N waits s u ev hstep k) (ih u t h)

theorem run_twoInv (waits : Nat → Bool) (A B : GoError) (evs : List Ev) :
    ∀ s t, evs.all (Ev.carries (some A) (some B)) = true → run 2 waits s evs = some t →
      s.TwoInv A B → t.TwoInv A B := by
  induction evs with
  | nil =>
    intro s t _ h hs
    simp only [run] at h
    cases h
    exact hs
  | cons ev evs ih =>
    intro s t hc h hs
    simp only [List.all_cons, Bool.and_eq_true] at hc
    simp only [run] at h
    cases hstep : step 2 waits s ev with
    | none => simp [hstep] at h
    | some u =>
      rw [hstep] at h
      exact ih u t hc.2 h (twoInv_step waits A B s u ev hc.1 hstep hs)

theorem step_useInternalErrorFirst (N : Nat) (waits : Nat → Bool) (s t : Sys) (ev : Ev)
    (h : step N waits s ev = some t) (hpc : s.pc 0 ≠ Pc.unwind2) :
    t.useInternalErrorFirst 0 = s.useInternalErrorFirst 0 := by
  cases ev with
  | cancel =>
    simp only [step] at h
    cases h
    rfl
  | act j e =>
    simp only [step] at h
    split at h
    · split at h
      all_goals try split at h
      all_goals first
        | exact Option.noConfusion h
        | (cases h; rfl)
        | (cases h
           by_cases hj : j = 0
           · subst hj
             simp_all
           · simp [Function.update, Ne.symm hj])
    · exact Option.noConfusion h

theorem run_useInternalErrorFirst (N : Nat) (waits : Nat → Bool) (evs : List Ev) :
    ∀ s t, run N waits s evs = some t → Pc.unwind3.rank ≤ (s.pc 0).rank →
      t.useInternalErrorFirst 0 = s.useInternalErrorFirst 0 := by
  induction evs with
  | nil =>
    intro s t h _
    simp only [run] at h
    cases h
    rfl
  | cons ev evs ih =>
    intro s t h hs
    simp only [run] at h
    cases hstep : step N waits s ev with
    | none => simp [hstep] at h
    | some u =>
      rw [hstep] at h
      have hne : s.pc 0 ≠ Pc.unwind2 := by
        intro hh
        rw [hh] at hs
        exact absurd hs (by decide)
      rw [ih u t h (Nat.le_trans hs (step_pc_mono N waits s u ev hstep 0)),
        step_useInternalErrorFirst N waits s u ev hstep hne]

theorem step_cas (N : Nat) (waits : Nat → Bool) (s t : Sys) (x : Option GoError)
    (hcas : s.pc 0 = Pc.unwind2) (h : step N waits s (Ev.act 0 x) = some t) :
    t.useInternalErrorFirst 0 = s.flag 0 ∧ t.pc 0 = Pc.unwind3 := by
  simp only [step, hcas] at h
  split at h
  · cases h
    simp
  · exact Option.noConfusion h

theorem rank_le_finished (p : Pc) : p.rank ≤ Pc.finished.rank := by
  cases p <;> decide

theorem twoInv_next (waits : Nat → Bool) (A B : GoError) (s : Sys) (hs : s.TwoInv A B)
    (hne : s.pc 0 ≠ Pc.returned) :
    ∃ t, step 2 waits s (s.nextEv A B) = some t ∧ t.remaining < s.remaining ∧
      (s.nextEv A B).carries (some A) (some B) = true := by
  obtain ⟨h1, h2, h3, _, _, _, h7, _⟩ := hs
  cases hcl : s.caller
  · exact ⟨{ s with caller := true }, by simp [Sys.nextEv, hcl, step],
      by simp [Sys.remaining, hcl], by simp [Sys.nextEv, hcl, Ev.carries]⟩
  · cases hp1 : s.pc 1 <;> simp only [hp1, Pc.rank] at h3 h7 <;>
      first
      | omega
      | (cases hp0 : s.pc 0 <;> simp only [hp0, Pc.rank] at h2 h1 hne <;>
          first
          | omega
          | exact absurd rfl h1
          | exact absurd rfl hne
          | simp [Sys.nextEv, step, Sys.remaining, Ev.carries, Sys.done, Function.update,
              hcl, hp0, hp1, Pc.rank, h7])

theorem twoInv_completes (waits : Nat → Bool) (A B : GoError) :
    ∀ (n : Nat) (s : Sys), s.TwoInv A B → s.remaining ≤ n →
      ∃ more t, more.all (Ev.carries (some A) (some B)) = true ∧
        run 2 waits s more = some t ∧ t.pc 0 = Pc.returned := by
  intro n
  induction n with
  | zero =>
    intro s hs hn
    by_cases hret : s.pc 0 = Pc.returned
    · exact ⟨[], s, rfl, rfl, hret⟩
    · obtain ⟨t, _, hlt, _⟩ := twoInv_next waits A B s hs hret
      omega
  | succ n ih =>
    intro s hs hn
    by_cases hret : s.pc 0 = Pc.returned
    · exact ⟨[], s, rfl, rfl, hret⟩
    · obtain ⟨t, hstep, hlt, hc⟩ := twoInv_next waits A B s hs hret
      obtain ⟨more, u, hmore, hrun, hu⟩ :=
        ih t (twoInv_step waits A B s t _ hc hstep hs) (by omega)
      refine ⟨s.nextEv A B :: more, u, ?_, ?_, hu⟩
      · simp only [List.all_cons, hc, hmore, Bool.and_self]
      · simp only [run, hstep]
        exact hrun

end Jet.jetfn

namespace Jet

open Jet.jetfn Jet.jet Jet.jethttp

/-- C3 (as stated, refuted): with two jobs failing with `A` and `B`, job 0
returns `A` while job 1 is still running, so before the frame of job 1 has
finished; the goroutine of frame 1 then stores the flag before the
compare-and-swap of frame 0, and `Stack` returns `B` and logs `skipped: A`. -/
theorem C3_job0_first_yet_B_returned :
    ∃ s0 s, run 2 (fun _ => false) Sys.init bothStartedRun = some s0 ∧
      s0.pc 0 = Pc.unwind1 ∧ s0.err 0 = some errA ∧ s0.pc 1 = Pc.running ∧
      s0.flag 0 = false ∧
      run 2 (fun _ => false) s0 (lateStoreMid ++ Ev.act 0 (some errA) :: lateStorePost)
        = some s ∧
      s.pc 0 = Pc.returned ∧ s.err 0 = some errB ∧ s.stderr = ["skipped: A\n"] :=
  ⟨_, _, rfl, rfl, rfl, rfl, rfl, rfl, rfl, rfl, rfl⟩

/-- C3 (amended): in every run of `jetfn.Stack` over two jobs that return the
errors `A` and `B`, taken at the state `s1` where frame 0 is about to execute
its compare-and-swap: the run can be completed, and in every completion
`Stack` returns `B` and logs `skipped: A` if the goroutine of frame 1 has
stored the flag before the compare-and-swap (in particular if it had already
done so at an earlier state `s0`, such as the return of job 0), and returns
`A` and logs `skipped: B` if the compare-and-swap comes before the store. -/
theorem C3_two_failures_by_store_order (waits : Nat → Bool) (A B : GoError)
    (pre mid : List Ev) (s0 s1 : Sys)
    (hpay : (pre ++ mid).all (Ev.carries (some A) (some B)) = true)
    (h0 : run 2 waits Sys.init pre = some s0) (h1 : run 2 waits s0 mid = some s1)
    (hcas : s1.pc 0 = Pc.unwind2) :
    (∃ post s, post.all (Ev.carries (some A) (some B)) = true ∧
      run 2 waits s1 (Ev.act 0 (some A) :: post) = some s ∧ s.pc 0 = Pc.returned) ∧
    (∀ x post s, (Ev.act 0 x :: post).all (Ev.carries (some A) (some B)) = true →
      run 2 waits s1 (Ev.act 0 x :: post) = some s → s.pc 0 = Pc.returned →
      ((Pc.stored.rank ≤ (s0.pc 1).rank ∨ Pc.stored.rank ≤ (s1.pc 1).rank) →
        s.err 0 = some B ∧ s.stderr = ["skipped: " ++ A.text ++ "\n"]) ∧
      ((s1.pc 1).rank < Pc.stored.rank →
        s.err 0 = some A ∧ s.stderr = ["skipped: " ++ B.text ++ "\n"])) := by
  have hrun : run 2 waits Sys.init (pre ++ mid) = some s1 := by
    rw [run_append 2 waits pre mid Sys.init s0 h0]
    exact h1
  have hinv : s1.TwoInv A B :=
    run_twoInv waits A B (pre ++ mid) Sys.init s1 hpay hrun (twoInv_init A B)
  have hflag : s1.flag 0 = true ↔ Pc.stored.rank ≤ (s1.pc 1).rank := by
    obtain ⟨_, _, _, _, _, _, _, h8, _⟩ := hinv
    exact h8 (by rw [hcas])
  have hmono := run_pc_mono 2 waits mid 1 s0 s1 h1
  constructor
  · have hc : (Ev.act 0 (some A)).carries (some A) (some B) = true := by
      simp [Ev.carries]
    have hstep : ∃ t, step 2 waits s1 (Ev.act 0 (some A)) = some t := by
      simp [step, hcas]
    obtain ⟨t, ht⟩ := hstep
    obtain ⟨post, s, hpost, hs, hret⟩ := twoInv_completes waits A B t.remaining t
      (twoInv_step waits A B s1 t _ hc ht hinv) (Nat.le_refl _)
    refine ⟨post, s, hpost, ?_, hret⟩
    simp only [run, ht]
    exact hs
  · intro x post s hc hs hret
    simp only [List.all_cons, Bool.and_eq_true] at hc
    simp only [run] at hs
    cases hstep : step 2 waits s1 (Ev.act 0 x) with
    | none => simp [hstep] at hs
    | some t =>
      rw [hstep] at hs
      obtain ⟨huse, hpc⟩ := step_cas 2 waits s1 t x hcas hstep
      have htinv := twoInv_step waits A B s1 t _ hc.1 hstep hinv
      have hsinv := run_twoInv waits A B post t s hc.2 hs htinv
      have hfix := run_useInternalErrorFirst 2 waits post t s hs (by rw [hpc])
      obtain ⟨_, _, _, _, _, _, _, _, _, _, _, h12⟩ := hsinv
      have hres := h12 (by rw [hret])
      rw [hfix, huse] at hres
      constructor
      · intro hst
        have hst1 : Pc.stored.rank ≤ (s1.pc 1).rank := by
          rcases hst with h | h
          · exact Nat.le_trans h hmono
          · exact h
        rw [hflag.mpr hst1] at hres
        exact hres
      · intro hlt
        have hf : s1.flag 0 = false := by
          cases hfl : s1.flag 0 with
          | false => rfl
          | true => exact absurd (hflag.mp hfl) (Nat.not_le_of_lt hlt)
        rw [hf] at hres
        exact hres

/-- C3 witness: after both jobs are started and job 0 has returned, the run
in which frame 1 stores the flag first ends with `B` returned and `A` logged,
the run in which frame 0 swaps first ends with `A` returned and `B` logged. -/
theorem C3_two_failures_by_store_order_witness :
    (∃ s1 s, run 2 (fun _ => false) Sys.init (bothStartedRun ++ lateStoreMid) = some s1 ∧
      s1.pc 1 = Pc.stored ∧
      run 2 (fun _ => false) s1 (Ev.act 0 (some errA) :: lateStorePost) = some s ∧
      s.err 0 = some errB ∧ s.stderr = ["skipped: A\n"]) ∧
    (∃ s1 s, run 2 (fun _ => false) Sys.init (bothStartedRun ++ earlyCasMid) = some s1 ∧
      s1.pc 1 = Pc.running ∧
      run 2 (fun _ => false) s1 (Ev.act 0 (some errA) :: earlyCasPost) = some s ∧
      s.err 0 = some errA ∧ s.stderr = ["skipped: B\n"]) :=
  ⟨⟨_, _, rfl, rfl, rfl,
      ((C3_two_failures_by_store_order (fun _ => false) errA errB bothStartedRun lateStoreMid
        _ _ (by decide) rfl rfl rfl).2 (some errA) lateStorePost _ (by decide) rfl rfl).1
        (Or.inr (by decide))⟩,
    ⟨_, _, rfl, rfl, rfl,
      ((C3_two_failures_by_store_order (fun _ => false) errA errB bothStartedRun earlyCasMid
        _ _ (by decide) rfl rfl rfl).2 (some errA) earlyCasPost _ (by decide) rfl rfl).2
        (by decide)⟩⟩

end Jet
